import Mathlib

/-!
Shallow embedding of `src/bot.py` (Digital_StitchEntregasBot): a digital-goods
fulfillment backend over a relational store with five tables (`users`,
`products`, `codes`, `orders`, `balance_moves`).  Each Python DB method that
runs one SQL transaction is embedded as a pure function on a `Store` value;
the transaction is the atomic step.  Timestamps (`now_str()`) and the random
order id (`uuid.uuid4().hex[:10].upper()`) are nondeterministic inputs and
are threaded in as explicit string parameters.  `BIGSERIAL` columns are
modelled by counters `next_code_id` / `next_move_id` in the store.
-/

namespace Bot

/-- Row of the `users` table. -/
structure UserRow where
  telegram_id : Int
  username : Option String
  first_name : Option String
  balance_cents : Int
  created_at : String
deriving Repr, DecidableEq

/-- Row of the `products` table. -/
structure ProductRow where
  sku : String
  name : String
  price_cents : Int
  active : Bool
deriving Repr, DecidableEq

/-- Row of the `codes` table. -/
structure CodeRow where
  id : Nat
  sku : String
  code : String
  status : String
  created_at : String
  delivered_at : Option String
  buyer_telegram_id : Option Int
  order_id : Option String
deriving Repr, DecidableEq

/-- Row of the `orders` table. -/
structure OrderRow where
  order_id : String
  telegram_id : Int
  sku : String
  price_cents : Int
  status : String
  created_at : String
  delivered_at : Option String
deriving Repr, DecidableEq

/-- Row of the `balance_moves` table. -/
structure MoveRow where
  id : Nat
  telegram_id : Int
  type : String
  amount_cents : Int
  balance_before_cents : Int
  balance_after_cents : Int
  ref : String
  created_at : String
deriving Repr, DecidableEq

/-- The whole persistent store (the five tables plus the serial counters). -/
structure Store where
  users : List UserRow
  products : List ProductRow
  codes : List CodeRow
  orders : List OrderRow
  balance_moves : List MoveRow
  next_code_id : Nat
  next_move_id : Nat
deriving Repr, DecidableEq

/-- The store right after `DB.init` created the empty tables. -/
def initStore : Store :=
  { users := [], products := [], codes := [], orders := [], balance_moves := [],
    next_code_id := 1, next_move_id := 1 }

/-- `SELECT ... FROM users WHERE telegram_id=$1` (primary-key lookup). -/
def findUser (s : Store) (telegram_id : Int) : Option UserRow :=
  s.users.find? (fun u => u.telegram_id = telegram_id)

/-- `SELECT ... FROM products WHERE sku=$1` (primary-key lookup). -/
def findProduct (s : Store) (sku : String) : Option ProductRow :=
  s.products.find? (fun p => p.sku = sku)

/-- The rows `WHERE sku=$1 AND status='available'` of the `codes` table. -/
def availableCodes (s : Store) (sku : String) : List CodeRow :=
  s.codes.filter (fun c => c.sku = sku && c.status = "available")

/-- Helper realizing `ORDER BY id ASC LIMIT 1`: the row of minimal `id`. -/
def minByIdAux : CodeRow → List CodeRow → CodeRow
  | b, [] => b
  | b, c :: rest => minByIdAux (if c.id < b.id then c else b) rest

/-- `SELECT id, code FROM codes WHERE sku=$1 AND status='available' ORDER BY
id ASC LIMIT 1` of `DB.deliver_purchase`. -/
def pickCode (s : Store) (sku : String) : Option CodeRow :=
  match availableCodes s sku with
  | [] => none
  | c :: rest => some (minByIdAux c rest)

/-- `DB.upsert_user`: insert with balance 0 when absent, else update the
display columns only. -/
def upsert_user (s : Store) (telegram_id : Int) (username first_name : Option String)
    (now : String) : Store :=
  match findUser s telegram_id with
  | none =>
    { s with users := s.users ++
        [{ telegram_id := telegram_id, username := username, first_name := first_name,
           balance_cents := 0, created_at := now }] }
  | some _ =>
    { s with users := s.users.map (fun u =>
        if u.telegram_id = telegram_id then
          { u with username := username, first_name := first_name }
        else u) }

/-- `DB.get_balance`: the row's balance, or 0 when the row is absent. -/
def get_balance (s : Store) (telegram_id : Int) : Int :=
  match findUser s telegram_id with
  | some u => u.balance_cents
  | none => 0

/-- Python `str.strip()`: drop leading and trailing whitespace
(structurally recursive so that it evaluates by `decide`). -/
def py_strip (s : String) : String :=
  String.mk ((((s.toList.dropWhile Char.isWhitespace).reverse).dropWhile
    Char.isWhitespace).reverse)

/-- `username.lstrip("@").strip()` of `DB.user_id_by_username`. -/
def clean_username (u : String) : String :=
  py_strip (String.mk (u.toList.dropWhile (fun c => c = '@')))

/-- `DB.user_id_by_username`: first user row whose `username` column equals
the cleaned handle. -/
def user_id_by_username (s : Store) (username : String) : Option Int :=
  match s.users.find? (fun u => u.username = some (clean_username username)) with
  | some u => some u.telegram_id
  | none => none

/-- `DB.set_balance_with_move`: inside one transaction, lock and read the
current balance; if the user row is absent, silently `return` (no write, no
error value — the Python function returns `None` on every path); otherwise
set the balance to the caller-supplied `new_balance` and append one
`balance_moves` row whose `balance_before` is the freshly read balance and
whose `balance_after` is `new_balance`.  The returned `Unit` is the `None`
the Python caller gets back on both paths. -/
def set_balance_with_move (s : Store) (telegram_id : Int) (new_balance : Int)
    (move_type : String) (amount_cents : Int) (ref : String) (now : String) :
    Store × Unit :=
  match findUser s telegram_id with
  | none => (s, ())
  | some u =>
    let before := u.balance_cents
    let after := new_balance
    let mv : MoveRow :=
      { id := s.next_move_id, telegram_id := telegram_id, type := move_type,
        amount_cents := amount_cents, balance_before_cents := before,
        balance_after_cents := after, ref := ref, created_at := now }
    ({ s with
        users := s.users.map (fun v =>
          if v.telegram_id = telegram_id then { v with balance_cents := after } else v),
        balance_moves := s.balance_moves ++ [mv],
        next_move_id := s.next_move_id + 1 }, ())

/-- `DB.ensure_product`: insert `(sku, name or sku, price_cents or 0, TRUE)`
only when no row with that sku exists. -/
def ensure_product (s : Store) (sku : String) (name : Option String)
    (price_cents : Option Int) : Store :=
  match findProduct s sku with
  | some _ => s
  | none =>
    { s with products := s.products ++
        [{ sku := sku, name := name.getD sku, price_cents := price_cents.getD 0,
           active := true }] }

/-- `DB.set_price`: `UPDATE products SET price_cents=$2 WHERE sku=$1`. -/
def set_price (s : Store) (sku : String) (price_cents : Int) : Store :=
  { s with products := s.products.map (fun p =>
      if p.sku = sku then { p with price_cents := price_cents } else p) }

/-- `DB.set_name`: `UPDATE products SET name=$2 WHERE sku=$1`. -/
def set_name (s : Store) (sku : String) (name : String) : Store :=
  { s with products := s.products.map (fun p =>
      if p.sku = sku then { p with name := name } else p) }

/-- `DB.set_active`: `UPDATE products SET active=$2 WHERE sku=$1`. -/
def set_active (s : Store) (sku : String) (active : Bool) : Store :=
  { s with products := s.products.map (fun p =>
      if p.sku = sku then { p with active := active } else p) }

/-- `DB.stock_for_sku`: `COUNT(*)` of available codes of the sku. -/
def stock_for_sku (s : Store) (sku : String) : Nat :=
  (availableCodes s sku).length

/-- The insertion loop of `DB.add_codes`: strip each payload, skip the blank
ones, insert the rest with status `available`, counting the insertions. -/
def add_codes_loop (s : Store) (sku now : String) : List String → Nat → Nat × Store
  | [], n => (n, s)
  | c :: rest, n =>
    if py_strip c = "" then add_codes_loop s sku now rest n
    else
      add_codes_loop
        { s with
            codes := s.codes ++
              [{ id := s.next_code_id, sku := sku, code := py_strip c,
                 status := "available", created_at := now, delivered_at := none,
                 buyer_telegram_id := none, order_id := none }],
            next_code_id := s.next_code_id + 1 }
        sku now rest (n + 1)

/-- `DB.add_codes`: `ensure_product(sku, name=sku, price_cents=0)` then the
insertion transaction; returns the number of inserted (non-blank) payloads. -/
def add_codes (s : Store) (sku : String) (codes : List String) (now : String) :
    Nat × Store :=
  add_codes_loop (ensure_product s sku (some sku) (some 0)) sku now codes 0

/-- One constructor per `return` site of `DB.deliver_purchase`; the `ok`
payload carries exactly the data interpolated into the success message
(product name, code payload, order id, remaining balance). -/
inductive PurchaseResult where
  | noProduct
  | inactive
  | noUser
  | insufficient (faltan : Int)
  | noStock
  | ok (name : String) (code_value : String) (order_id : String) (new_balance : Int)
deriving Repr, DecidableEq

/-- Whether the purchase returned `True` (the success branch). -/
def PurchaseResult.isOk : PurchaseResult → Bool
  | .ok _ _ _ _ => true
  | _ => false

/-- `DB.deliver_purchase`: load the product (outside the transaction); fail
on missing or inactive product; then, in one transaction, lock the user row
(fail when absent), check the balance (fail with the shortfall when
insufficient), pick the lowest-id available code (fail when none), mark it
delivered, insert the order, update the balance and append the purchase
movement. -/
def deliver_purchase (s : Store) (telegram_id : Int) (sku : String)
    (order_id now : String) : PurchaseResult × Store :=
  match findProduct s sku with
  | none => (.noProduct, s)
  | some prod =>
    if prod.active = false then (.inactive, s)
    else
      let price_cents := prod.price_cents
      match findUser s telegram_id with
      | none => (.noUser, s)
      | some u =>
        let balance := u.balance_cents
        if balance < price_cents then (.insufficient (price_cents - balance), s)
        else
          match pickCode s sku with
          | none => (.noStock, s)
          | some code_row =>
            let new_balance := balance - price_cents
            let mv : MoveRow :=
              { id := s.next_move_id, telegram_id := telegram_id, type := "purchase",
                amount_cents := -price_cents, balance_before_cents := balance,
                balance_after_cents := new_balance, ref := "order:" ++ order_id,
                created_at := now }
            (.ok prod.name code_row.code order_id new_balance,
             { s with
                 codes := s.codes.map (fun c =>
                   if c.id = code_row.id then
                     { c with
                         status := "delivered", delivered_at := some now,
                         buyer_telegram_id := some telegram_id,
                         order_id := some order_id }
                   else c),
                 orders := s.orders ++
                   [{ order_id := order_id, telegram_id := telegram_id, sku := sku,
                      price_cents := price_cents, status := "paid_delivered",
                      created_at := now, delivered_at := some now }],
                 users := s.users.map (fun v =>
                   if v.telegram_id = telegram_id then { v with balance_cents := new_balance }
                   else v),
                 balance_moves := s.balance_moves ++ [mv],
                 next_move_id := s.next_move_id + 1 })

/-- The `/sumar` handler (`admin_sumar`): resolve the username (abort when
unknown), reject a non-positive amount (`cents is None or cents <= 0`), read
the balance and apply a `topup` movement for `before + cents`. -/
def admin_sumar (s : Store) (username : String) (cents : Int) (admin_ref : String)
    (now : String) : Store :=
  match user_id_by_username s username with
  | none => s
  | some uid =>
    if cents ≤ 0 then s
    else
      let before := get_balance s uid
      (set_balance_with_move s uid (before + cents) "topup" cents admin_ref now).1

/-- The `/restar` handler (`admin_restar`): resolve the username (abort when
unknown), reject a non-positive amount, read the balance and apply an
`admin_adjust` movement for `before - cents` — with no sufficiency check. -/
def admin_restar (s : Store) (username : String) (cents : Int) (admin_ref : String)
    (now : String) : Store :=
  match user_id_by_username s username with
  | none => s
  | some uid =>
    if cents ≤ 0 then s
    else
      let before := get_balance s uid
      (set_balance_with_move s uid (before - cents) "admin_adjust" (-cents) admin_ref now).1


/-- One user-or-admin operation of the bot, as dispatched by the handlers in
`main()`: `/start` (and every handler's `upsert_user`), a purchase tap, the
admin `/sumar`, `/restar`, `/addcodes` + paste, `/precio`, `/nombre`,
`/activar`-`/desactivar`.  The nondeterministic timestamp and order id are
data of the operation. -/
inductive Op where
  | start (telegram_id : Int) (username first_name : Option String) (now : String)
  | purchase (telegram_id : Int) (sku : String) (order_id now : String)
  | topup (username : String) (cents : Int) (admin_ref now : String)
  | deduct (username : String) (cents : Int) (admin_ref now : String)
  | addCodes (sku : String) (codes : List String) (now : String)
  | price (sku : String) (cents : Int)
  | rename (sku : String) (name : String)
  | activate (sku : String) (active : Bool)
deriving Repr, DecidableEq

/-- The state transition of one operation. -/
def applyOp (s : Store) : Op → Store
  | .start telegram_id username first_name now => upsert_user s telegram_id username first_name now
  | .purchase telegram_id sku order_id now => (deliver_purchase s telegram_id sku order_id now).2
  | .topup username cents admin_ref now => admin_sumar s username cents admin_ref now
  | .deduct username cents admin_ref now => admin_restar s username cents admin_ref now
  | .addCodes sku codes now => (add_codes s sku codes now).2
  | .price sku cents => set_price s sku cents
  | .rename sku name => set_name s sku name
  | .activate sku active => set_active s sku active

/-- Run a sequence of operations from a store. -/
def runOps (s : Store) (ops : List Op) : Store :=
  ops.foldl applyOp s

/-- The `balance_moves` rows of one account, in stored (insertion) order. -/
def movesFor (s : Store) (telegram_id : Int) : List MoveRow :=
  s.balance_moves.filter (fun m => m.telegram_id = telegram_id)

/-- The exact-chain check of the spec: starting from running balance `bal`,
every movement satisfies `balance_before = running` and
`balance_after = balance_before + amount`, threading `balance_after` on. -/
def chainOk (bal : Int) : List MoveRow → Bool
  | [] => true
  | m :: rest =>
    decide (m.balance_before_cents = bal) &&
    decide (m.balance_after_cents = m.balance_before_cents + m.amount_cents) &&
    chainOk m.balance_after_cents rest

/-- The running balance after replaying the chain (the last `balance_after`,
or the start value for an empty history). -/
def endBal (bal : Int) : List MoveRow → Int
  | [] => bal
  | m :: rest => endBal m.balance_after_cents rest

/-- Sum of the signed movement amounts. -/
def sumAmounts (ms : List MoveRow) : Int :=
  ms.foldr (fun m acc => m.amount_cents + acc) 0

/-- Schema well-formedness the SQL store guarantees by itself: `telegram_id`
is the `users` primary key, `sku` the `products` primary key, `id` the
`codes` primary key (a `BIGSERIAL`). -/
structure WF (s : Store) : Prop where
  users_nodup : (s.users.map (fun u => u.telegram_id)).Nodup
  products_nodup : (s.products.map (fun p => p.sku)).Nodup
  codes_nodup : (s.codes.map (fun c => c.id)).Nodup

/-- One schedule of purchase transactions for one sku: each entry is a
caller (telegram id) with its minted order id and timestamp.  Because every
`deliver_purchase` runs as one atomic transaction, any concurrent execution
is equivalent to running the transactions in some order; quantifying over
all schedules covers all interleavings. -/
def runPurchases (s : Store) (sku : String) :
    List (Int × String × String) → List PurchaseResult × Store
  | [] => ([], s)
  | (telegram_id, order_id, now) :: rest =>
    let r := deliver_purchase s telegram_id sku order_id now
    let rs := runPurchases r.2 sku rest
    (r.1 :: rs.1, rs.2)

/-- The code payloads returned by the successful purchases, in order. -/
def okPayloads : List PurchaseResult → List String
  | [] => []
  | .ok _ code_value _ _ :: rest => code_value :: okPayloads rest
  | _ :: rest => okPayloads rest

/-- Number of successful results. -/
def countOk (rs : List PurchaseResult) : Nat :=
  rs.countP (fun r => r.isOk)

/-- Number of out-of-stock failures. -/
def countNoStock (rs : List PurchaseResult) : Nat :=
  rs.countP (fun r => decide (r = .noStock))

/-- The rows `DB.add_codes` inserts for a payload batch, ids counting up
from `id0` (the spec-side image of the insertion loop, compared against the
embedded loop in the `add_codes` theorem). -/
def newCodeRows (sku now : String) (id0 : Nat) : List String → List CodeRow
  | [] => []
  | c :: rest =>
    if py_strip c = "" then newCodeRows sku now id0 rest
    else
      { id := id0, sku := sku, code := py_strip c, status := "available",
        created_at := now, delivered_at := none, buyer_telegram_id := none,
        order_id := none } :: newCodeRows sku now (id0 + 1) rest

/-- The store written by the success branch of `DB.deliver_purchase`
(mark the picked code delivered, insert the order, debit the balance,
append the purchase movement). -/
def purchaseWrite (s : Store) (telegram_id : Int) (sku order_id now : String)
    (price balance : Int) (cid : Nat) : Store :=
  { s with
      codes := s.codes.map (fun c =>
        if c.id = cid then
          { c with
              status := "delivered", delivered_at := some now,
              buyer_telegram_id := some telegram_id,
              order_id := some order_id }
        else c),
      orders := s.orders ++
        [{ order_id := order_id, telegram_id := telegram_id, sku := sku,
           price_cents := price, status := "paid_delivered",
           created_at := now, delivered_at := some now }],
      users := s.users.map (fun v =>
        if v.telegram_id = telegram_id then { v with balance_cents := balance - price }
        else v),
      balance_moves := s.balance_moves ++
        [{ id := s.next_move_id, telegram_id := telegram_id, type := "purchase",
           amount_cents := -price, balance_before_cents := balance,
           balance_after_cents := balance - price, ref := "order:" ++ order_id,
           created_at := now }],
      next_move_id := s.next_move_id + 1 }

/-- Whether an operation is the admin deduction `/restar`. -/
def Op.isDeduct : Op → Bool
  | .deduct _ _ _ _ => true
  | _ => false

/-- Demo store: one registered user with balance 500, one active product at
price 300 with two available codes (the scenario of the spec). -/
def demoStore : Store :=
  { users := [{ telegram_id := 1, username := some "alice", first_name := none,
                balance_cents := 500, created_at := "t0" }],
    products := [{ sku := "DISNEY_1M", name := "Disney 1m", price_cents := 300,
                   active := true }],
    codes := [{ id := 1, sku := "DISNEY_1M", code := "A1", status := "available",
                created_at := "t0", delivered_at := none,
                buyer_telegram_id := none, order_id := none },
              { id := 2, sku := "DISNEY_1M", code := "A2", status := "available",
                created_at := "t0", delivered_at := none,
                buyer_telegram_id := none, order_id := none }],
    orders := [], balance_moves := [], next_code_id := 3, next_move_id := 1 }

/-- Store whose inventory holds two units with the same payload string for
one sku, and two registered buyers who can both afford it. -/
def dupPayloadStore : Store :=
  { users := [{ telegram_id := 1, username := some "u1", first_name := none,
                balance_cents := 300, created_at := "t0" },
              { telegram_id := 2, username := some "u2", first_name := none,
                balance_cents := 300, created_at := "t0" }],
    products := [{ sku := "GIFT", name := "Gift", price_cents := 300,
                   active := true }],
    codes := [{ id := 1, sku := "GIFT", code := "SAMECODE", status := "available",
                created_at := "t0", delivered_at := none,
                buyer_telegram_id := none, order_id := none },
              { id := 2, sku := "GIFT", code := "SAMECODE", status := "available",
                created_at := "t0", delivered_at := none,
                buyer_telegram_id := none, order_id := none }],
    orders := [], balance_moves := [], next_code_id := 3, next_move_id := 1 }

/-- A user row with balance exactly one cent short of the demo price. -/
def shortStore : Store :=
  { demoStore with
      users := [{ telegram_id := 1, username := some "alice", first_name := none,
                  balance_cents := 299, created_at := "t0" }] }

/-- The ledger invariant maintained by every bot operation: distinct user
rows, every movement belongs to a user, movement ids are strictly
increasing (and below the serial counter), and each user's movement list
chains exactly from initial balance 0 to the stored balance. -/
structure LedgerInv (s : Store) : Prop where
  tids_nodup : (s.users.map (fun u => u.telegram_id)).Nodup
  moves_user : ∀ m ∈ s.balance_moves, ∃ u ∈ s.users, u.telegram_id = m.telegram_id
  ids_lt : ∀ m ∈ s.balance_moves, m.id < s.next_move_id
  ids_sorted : s.balance_moves.Pairwise (fun a b => a.id < b.id)
  chains : ∀ u ∈ s.users, chainOk 0 (movesFor s u.telegram_id) = true ∧
    endBal 0 (movesFor s u.telegram_id) = u.balance_cents

/-- A small demo history: a user registers and receives a 100-cent top-up. -/
def demoOps : List Op :=
  [.start 1 (some "alice") none "t0", .topup "alice" 100 "a" "t1"]

/-! ### Branch characterizations of `deliver_purchase` -/

lemma deliver_purchase_noProduct (s : Store) (telegram_id : Int) (sku order_id now : String)
    (h : findProduct s sku = none) :
    deliver_purchase s telegram_id sku order_id now = (.noProduct, s) := by
  simp [deliver_purchase, h]

lemma deliver_purchase_inactive (s : Store) (telegram_id : Int) (sku order_id now : String)
    (prod : ProductRow) (hp : findProduct s sku = some prod) (ha : prod.active = false) :
    deliver_purchase s telegram_id sku order_id now = (.inactive, s) := by
  simp [deliver_purchase, hp, ha]

lemma deliver_purchase_noUser (s : Store) (telegram_id : Int) (sku order_id now : String)
    (prod : ProductRow) (hp : findProduct s sku = some prod) (ha : prod.active = true)
    (hu : findUser s telegram_id = none) :
    deliver_purchase s telegram_id sku order_id now = (.noUser, s) := by
  simp [deliver_purchase, hp, ha, hu]

lemma deliver_purchase_insufficient (s : Store) (telegram_id : Int) (sku order_id now : String)
    (prod : ProductRow) (u : UserRow) (hp : findProduct s sku = some prod)
    (ha : prod.active = true) (hu : findUser s telegram_id = some u)
    (hbal : u.balance_cents < prod.price_cents) :
    deliver_purchase s telegram_id sku order_id now =
      (.insufficient (prod.price_cents - u.balance_cents), s) := by
  simp [deliver_purchase, hp, ha, hu, hbal]

lemma deliver_purchase_noStock (s : Store) (telegram_id : Int) (sku order_id now : String)
    (prod : ProductRow) (u : UserRow) (hp : findProduct s sku = some prod)
    (ha : prod.active = true) (hu : findUser s telegram_id = some u)
    (hbal : ¬ u.balance_cents < prod.price_cents) (hpick : pickCode s sku = none) :
    deliver_purchase s telegram_id sku order_id now = (.noStock, s) := by
  simp [deliver_purchase, hp, ha, hu, hbal, hpick]

lemma deliver_purchase_success (s : Store) (telegram_id : Int) (sku order_id now : String)
    (prod : ProductRow) (u : UserRow) (c : CodeRow) (hp : findProduct s sku = some prod)
    (ha : prod.active = true) (hu : findUser s telegram_id = some u)
    (hbal : ¬ u.balance_cents < prod.price_cents) (hpick : pickCode s sku = some c) :
    deliver_purchase s telegram_id sku order_id now =
      (.ok prod.name c.code order_id (u.balance_cents - prod.price_cents),
       purchaseWrite s telegram_id sku order_id now prod.price_cents u.balance_cents c.id) := by
  simp [deliver_purchase, purchaseWrite, hp, ha, hu, hbal, hpick]

/-- C1: `deliver_purchase` is all-or-nothing: every failing call leaves the
store unchanged (no order row, no movement, no balance or code mutation),
and a successful one writes the order, the debit movement and the delivered
unit in the same atomic step. -/
theorem purchase_all_or_nothing (s : Store) (telegram_id : Int) (sku order_id now : String) :
    ((deliver_purchase s telegram_id sku order_id now).1.isOk = false →
      (deliver_purchase s telegram_id sku order_id now).2 = s) ∧
    ((deliver_purchase s telegram_id sku order_id now).1.isOk = true →
      ∃ prod u c, findProduct s sku = some prod ∧ findUser s telegram_id = some u ∧
        pickCode s sku = some c ∧
        (deliver_purchase s telegram_id sku order_id now).2 =
          purchaseWrite s telegram_id sku order_id now prod.price_cents u.balance_cents c.id) := by
  rcases hp : findProduct s sku with _ | prod
  · rw [deliver_purchase_noProduct s telegram_id sku order_id now hp]
    exact ⟨fun _ => rfl, fun h => by simp [PurchaseResult.isOk] at h⟩
  · rcases ha : prod.active with _ | _
    · rw [deliver_purchase_inactive s telegram_id sku order_id now prod hp ha]
      exact ⟨fun _ => rfl, fun h => by simp [PurchaseResult.isOk] at h⟩
    · rcases hu : findUser s telegram_id with _ | u
      · rw [deliver_purchase_noUser s telegram_id sku order_id now prod hp ha hu]
        exact ⟨fun _ => rfl, fun h => by simp [PurchaseResult.isOk] at h⟩
      · by_cases hbal : u.balance_cents < prod.price_cents
        · rw [deliver_purchase_insufficient s telegram_id sku order_id now prod u hp ha hu hbal]
          exact ⟨fun _ => rfl, fun h => by simp [PurchaseResult.isOk] at h⟩
        · rcases hpick : pickCode s sku with _ | c
          · rw [deliver_purchase_noStock s telegram_id sku order_id now prod u hp ha hu hbal hpick]
            exact ⟨fun _ => rfl, fun h => by simp [PurchaseResult.isOk] at h⟩
          · rw [deliver_purchase_success s telegram_id sku order_id now prod u c hp ha hu hbal hpick]
            refine ⟨fun h => by simp [PurchaseResult.isOk] at h, fun _ => ?h⟩
            exact ⟨prod, u, c, rfl, rfl, rfl, rfl⟩

/-- Witness for C1: at concrete inputs, an unknown-sku purchase leaves the
demo store unchanged. -/
theorem purchase_all_or_nothing_witness :
    (deliver_purchase demoStore 1 "NOPE" "ORD" "t1").2 = demoStore :=
  (purchase_all_or_nothing demoStore 1 "NOPE" "ORD" "t1").1 (by decide)

/-! ### `pickCode` selects the minimal-id available row -/

lemma minByIdAux_mem : ∀ (l : List CodeRow) (b : CodeRow), minByIdAux b l ∈ b :: l
  | [], b => by simp [minByIdAux]
  | c :: rest, b => by
    have ih := minByIdAux_mem rest (if c.id < b.id then c else b)
    rw [minByIdAux]
    rcases List.mem_cons.mp ih with h | h
    · rw [h]
      by_cases hc : c.id < b.id <;> simp [hc]
    · exact List.mem_cons_of_mem _ (List.mem_cons_of_mem _ h)

lemma minByIdAux_le_seed : ∀ (l : List CodeRow) (b : CodeRow), (minByIdAux b l).id ≤ b.id
  | [], _ => le_refl _
  | c :: rest, b => by
    rw [minByIdAux]
    refine le_trans (minByIdAux_le_seed rest _) ?h
    by_cases hc : c.id < b.id
    · simp only [if_pos hc]
      omega
    · simp only [if_neg hc]
      omega

lemma minByIdAux_min : ∀ (l : List CodeRow) (b : CodeRow), ∀ d ∈ b :: l, (minByIdAux b l).id ≤ d.id
  | [], b, d, hd => by
    rw [List.mem_singleton] at hd
    rw [hd]
    exact le_refl _
  | c :: rest, b, d, hd => by
    rw [minByIdAux]
    rcases List.mem_cons.mp hd with h | h
    · rw [h]
      refine le_trans (minByIdAux_le_seed rest _) ?h
      by_cases hc : c.id < b.id
      · simp only [if_pos hc]
        omega
      · simp only [if_neg hc]
        omega
    · rcases List.mem_cons.mp h with h2 | h2
      · rw [h2]
        refine le_trans (minByIdAux_le_seed rest _) ?h
        by_cases hc : c.id < b.id
        · simp only [if_pos hc]
          omega
        · simp only [if_neg hc]
          omega
      · exact minByIdAux_min rest _ d (List.mem_cons_of_mem _ h2)

lemma pickCode_isSome_of_ne_nil (s : Store) (sku : String)
    (h : availableCodes s sku ≠ []) : ∃ c, pickCode s sku = some c := by
  unfold pickCode
  cases hav : availableCodes s sku with
  | nil => exact absurd hav h
  | cons x rest => exact ⟨_, rfl⟩

lemma pickCode_some_spec (s : Store) (sku : String) (c : CodeRow)
    (h : pickCode s sku = some c) :
    c ∈ availableCodes s sku ∧ ∀ d ∈ availableCodes s sku, c.id ≤ d.id := by
  unfold pickCode at h
  cases hav : availableCodes s sku with
  | nil => rw [hav] at h; simp at h
  | cons x rest =>
    rw [hav] at h
    simp only [Option.some.injEq] at h
    rw [← h]
    exact ⟨minByIdAux_mem rest x, fun d hd => minByIdAux_min rest x d hd⟩

/-- Inversion of a successful purchase: every success comes from an active
product, a registered user with sufficient balance and a picked code, and
writes exactly `purchaseWrite`. -/
lemma deliver_purchase_isOk_inv (s : Store) (telegram_id : Int) (sku order_id now : String)
    (h : (deliver_purchase s telegram_id sku order_id now).1.isOk = true) :
    ∃ prod u c, findProduct s sku = some prod ∧ prod.active = true ∧
      findUser s telegram_id = some u ∧ ¬ u.balance_cents < prod.price_cents ∧
      pickCode s sku = some c ∧
      deliver_purchase s telegram_id sku order_id now =
        (.ok prod.name c.code order_id (u.balance_cents - prod.price_cents),
         purchaseWrite s telegram_id sku order_id now prod.price_cents u.balance_cents c.id) := by
  rcases hp : findProduct s sku with _ | prod
  · rw [deliver_purchase_noProduct s telegram_id sku order_id now hp] at h
    simp [PurchaseResult.isOk] at h
  · rcases ha : prod.active with _ | _
    · rw [deliver_purchase_inactive s telegram_id sku order_id now prod hp ha] at h
      simp [PurchaseResult.isOk] at h
    · rcases hu : findUser s telegram_id with _ | u
      · rw [deliver_purchase_noUser s telegram_id sku order_id now prod hp ha hu] at h
        simp [PurchaseResult.isOk] at h
      · by_cases hbal : u.balance_cents < prod.price_cents
        · rw [deliver_purchase_insufficient s telegram_id sku order_id now prod u hp ha hu hbal] at h
          simp [PurchaseResult.isOk] at h
        · rcases hpick : pickCode s sku with _ | c
          · rw [deliver_purchase_noStock s telegram_id sku order_id now prod u hp ha hu hbal hpick] at h
            simp [PurchaseResult.isOk] at h
          · exact ⟨prod, u, c, rfl, ha, rfl, hbal, rfl,
              deliver_purchase_success s telegram_id sku order_id now prod u c hp ha hu hbal hpick⟩

lemma findUser_some_tid (s : Store) (tid : Int) (u : UserRow)
    (h : findUser s tid = some u) : u.telegram_id = tid := by
  have h2 := List.find?_some h
  simpa using h2

lemma findUser_mem (s : Store) (tid : Int) (u : UserRow)
    (h : findUser s tid = some u) : u ∈ s.users :=
  List.mem_of_find?_eq_some h

lemma find?_map_tid_preserving (l : List UserRow) (f : UserRow → UserRow)
    (hf : ∀ v, (f v).telegram_id = v.telegram_id) (tid2 : Int) :
    (l.map f).find? (fun u => u.telegram_id = tid2) =
      (l.find? (fun u => u.telegram_id = tid2)).map f := by
  rw [List.find?_map]
  have hpq : ((fun u : UserRow => decide (u.telegram_id = tid2)) ∘ f) =
      (fun u : UserRow => decide (u.telegram_id = tid2)) := by
    funext v
    simp [Function.comp, hf v]
  rw [hpq]

lemma findUser_purchaseWrite (s : Store) (telegram_id : Int) (sku order_id now : String)
    (price balance : Int) (cid : Nat) (tid2 : Int) :
    findUser (purchaseWrite s telegram_id sku order_id now price balance cid) tid2 =
      (findUser s tid2).map (fun v =>
        if v.telegram_id = telegram_id then { v with balance_cents := balance - price }
        else v) := by
  unfold findUser purchaseWrite
  exact find?_map_tid_preserving s.users _
    (fun v => by by_cases hv : v.telegram_id = telegram_id <;> simp [hv]) tid2

/-- C4 counterexample: `set_balance_with_move` on an account that does not
exist returns exactly the same value (`None`) as a call on an existing
account that does mutate the store, so the caller cannot observe any
`AccountNotFound` failure from it. -/
theorem set_balance_missing_account_cex :
    (set_balance_with_move initStore 7 100 "topup" 100 "r" "t").2 =
      (set_balance_with_move demoStore 1 600 "topup" 100 "r" "t").2 ∧
    (set_balance_with_move initStore 7 100 "topup" 100 "r" "t").1 = initStore ∧
    (set_balance_with_move demoStore 1 600 "topup" 100 "r" "t").1 ≠ demoStore := by
  decide

/-- C4 (amended): for a nonexistent account `set_balance_with_move` is a
silent no-op — the store is unchanged, in particular no `balance_moves` row
is written — and it returns `None` exactly as on success, surfacing no
failure to the caller. -/
theorem set_balance_missing_account_noop (s : Store) (telegram_id : Int)
    (new_balance amount_cents : Int) (move_type ref now : String)
    (h : findUser s telegram_id = none) :
    set_balance_with_move s telegram_id new_balance move_type amount_cents ref now =
      (s, ()) := by
  simp [set_balance_with_move, h]

/-- Witness for the amended C4 at a concrete input. -/
theorem set_balance_missing_account_noop_witness :
    set_balance_with_move initStore 7 100 "topup" 100 "r" "t" = (initStore, ()) :=
  set_balance_missing_account_noop initStore 7 100 100 "topup" "r" "t" (by decide)

/-- C6: with an active product, a registered user and available stock, a
purchase with balance exactly the price succeeds and leaves the balance at
0, while a purchase one cent short fails with shortfall exactly 1 and
leaves balance and stock (the whole store) unchanged. -/
theorem exact_balance_boundary (s : Store) (telegram_id : Int) (sku order_id now : String)
    (prod : ProductRow) (u : UserRow) (hp : findProduct s sku = some prod)
    (ha : prod.active = true) (hu : findUser s telegram_id = some u)
    (hstock : availableCodes s sku ≠ []) :
    (u.balance_cents = prod.price_cents →
      ∃ c, pickCode s sku = some c ∧
        (deliver_purchase s telegram_id sku order_id now).1 =
          .ok prod.name c.code order_id 0 ∧
        get_balance (deliver_purchase s telegram_id sku order_id now).2 telegram_id = 0) ∧
    (u.balance_cents = prod.price_cents - 1 →
      deliver_purchase s telegram_id sku order_id now = (.insufficient 1, s)) := by
  constructor
  · intro heq
    have hbal : ¬ u.balance_cents < prod.price_cents := by omega
    obtain ⟨c, hpick⟩ := pickCode_isSome_of_ne_nil s sku hstock
    have hs := deliver_purchase_success s telegram_id sku order_id now prod u c hp ha hu hbal hpick
    refine ⟨c, hpick, ?h1, ?h2⟩
    · rw [hs, heq]
      simp
    · have htid := findUser_some_tid s telegram_id u hu
      rw [hs]
      show get_balance
        (purchaseWrite s telegram_id sku order_id now prod.price_cents u.balance_cents c.id)
        telegram_id = 0
      simp only [get_balance, findUser_purchaseWrite, hu, Option.map_some]
      simp [htid, heq]
  · intro heq
    have hbal : u.balance_cents < prod.price_cents := by omega
    rw [deliver_purchase_insufficient s telegram_id sku order_id now prod u hp ha hu hbal]
    have h1 : prod.price_cents - u.balance_cents = 1 := by omega
    rw [h1]

/-- Witness for C6 at concrete inputs: on the one-cent-short store the
purchase fails with shortfall 1 and no state change. -/
theorem exact_balance_boundary_witness :
    deliver_purchase shortStore 1 "DISNEY_1M" "ORD" "t1" = (.insufficient 1, shortStore) :=
  (exact_balance_boundary shortStore 1 "DISNEY_1M" "ORD" "t1"
    { sku := "DISNEY_1M", name := "Disney 1m", price_cents := 300, active := true }
    { telegram_id := 1, username := some "alice", first_name := none,
      balance_cents := 299, created_at := "t0" }
    (by decide) (by decide) (by decide) (by decide)).2 (by decide)

/-- C7: a successful claim consumes the available unit with the lowest id
(FIFO): the picked code is available for the sku and its id is minimal
among all available units of the sku at claim time, and the purchase
returns exactly its payload. -/
theorem fifo_lowest_id (s : Store) (telegram_id : Int) (sku order_id now : String)
    (prod : ProductRow) (u : UserRow) (hp : findProduct s sku = some prod)
    (ha : prod.active = true) (hu : findUser s telegram_id = some u)
    (hbal : ¬ u.balance_cents < prod.price_cents)
    (hstock : availableCodes s sku ≠ []) :
    ∃ c, pickCode s sku = some c ∧ c ∈ availableCodes s sku ∧
      (∀ d ∈ availableCodes s sku, c.id ≤ d.id) ∧
      (deliver_purchase s telegram_id sku order_id now).1 =
        .ok prod.name c.code order_id (u.balance_cents - prod.price_cents) := by
  obtain ⟨c, hpick⟩ := pickCode_isSome_of_ne_nil s sku hstock
  obtain ⟨hmem, hmin⟩ := pickCode_some_spec s sku c hpick
  refine ⟨c, hpick, hmem, hmin, ?h⟩
  rw [deliver_purchase_success s telegram_id sku order_id now prod u c hp ha hu hbal hpick]

/-- Witness for C7 at concrete inputs: on the demo store the oldest unit
`A1` (id 1) is delivered. -/
theorem fifo_lowest_id_witness :
    (deliver_purchase demoStore 1 "DISNEY_1M" "ORD" "t1").1 =
      .ok "Disney 1m" "A1" "ORD" 200 := by
  obtain ⟨c, hpick, hmem, hmin, hres⟩ :=
    fifo_lowest_id demoStore 1 "DISNEY_1M" "ORD" "t1"
      { sku := "DISNEY_1M", name := "Disney 1m", price_cents := 300, active := true }
      { telegram_id := 1, username := some "alice", first_name := none,
        balance_cents := 500, created_at := "t0" }
      (by decide) (by decide) (by decide) (by decide) (by decide)
  have hc : c = { id := 1, sku := "DISNEY_1M", code := "A1", status := "available",
                  created_at := "t0", delivered_at := none,
                  buyer_telegram_id := none, order_id := none } := by
    have h2 : pickCode demoStore "DISNEY_1M" =
        some { id := 1, sku := "DISNEY_1M", code := "A1", status := "available",
               created_at := "t0", delivered_at := none,
               buyer_telegram_id := none, order_id := none } := by decide
    rw [h2] at hpick
    exact (Option.some.inj hpick).symm
  rw [hres, hc]
  decide

/-- C8: unknown-sku and inactive-product purchases are rejected with the
specific failure and no side effect on any table, and the outcome is
decided before the transaction reads or locks the user row: it does not
depend on the `users` table at all. -/
theorem validation_rejected_before_lock (s : Store) (telegram_id : Int)
    (sku order_id now : String) :
    (findProduct s sku = none →
      deliver_purchase s telegram_id sku order_id now = (.noProduct, s) ∧
      ∀ us, (deliver_purchase { s with users := us } telegram_id sku order_id now).1 =
        .noProduct) ∧
    (∀ prod, findProduct s sku = some prod → prod.active = false →
      deliver_purchase s telegram_id sku order_id now = (.inactive, s) ∧
      ∀ us, (deliver_purchase { s with users := us } telegram_id sku order_id now).1 =
        .inactive) := by
  constructor
  · intro h
    constructor
    · exact deliver_purchase_noProduct s telegram_id sku order_id now h
    · intro us
      rw [deliver_purchase_noProduct { s with users := us } telegram_id sku order_id now h]
  · intro prod hp hact
    constructor
    · exact deliver_purchase_inactive s telegram_id sku order_id now prod hp hact
    · intro us
      rw [deliver_purchase_inactive { s with users := us } telegram_id sku order_id now prod hp hact]

/-- Witness for C8 at concrete inputs. -/
theorem validation_rejected_before_lock_witness :
    deliver_purchase demoStore 1 "NOPE" "ORD" "t1" = (.noProduct, demoStore) :=
  ((validation_rejected_before_lock demoStore 1 "NOPE" "ORD" "t1").1 (by decide)).1

/-- C9: the order row records a snapshot of the catalog price at purchase
time (the product price at the moment of the purchase), and `set_price`
touches only the `products` table, leaving every existing order row and
balance movement unchanged. -/
theorem order_price_snapshot (s : Store) (telegram_id : Int) (sku order_id now : String)
    (prod : ProductRow) (hp : findProduct s sku = some prod) :
    ((deliver_purchase s telegram_id sku order_id now).1.isOk = true →
      (deliver_purchase s telegram_id sku order_id now).2.orders =
        s.orders ++
          [{ order_id := order_id, telegram_id := telegram_id, sku := sku,
             price_cents := prod.price_cents, status := "paid_delivered",
             created_at := now, delivered_at := some now }]) ∧
    (∀ s2 : Store, ∀ p2 : Int,
      (set_price s2 sku p2).orders = s2.orders ∧
      (set_price s2 sku p2).balance_moves = s2.balance_moves) := by
  constructor
  · intro h
    obtain ⟨prod2, u, c, hp2, _, hu, hbal, hpick, heq⟩ :=
      deliver_purchase_isOk_inv s telegram_id sku order_id now h
    have hpp : prod2 = prod := by
      rw [hp] at hp2
      exact (Option.some.inj hp2).symm
    subst hpp
    rw [heq]
    simp [purchaseWrite]
  · intro s2 p2
    exact ⟨rfl, rfl⟩

/-- Witness for C9 at concrete inputs: the successful demo purchase records
price 300, and a later price change leaves `orders` and `balance_moves`
alone. -/
theorem order_price_snapshot_witness :
    (deliver_purchase demoStore 1 "DISNEY_1M" "ORD" "t1").2.orders =
      [{ order_id := "ORD", telegram_id := 1, sku := "DISNEY_1M",
         price_cents := 300, status := "paid_delivered",
         created_at := "t1", delivered_at := some "t1" }] :=
  (order_price_snapshot demoStore 1 "DISNEY_1M" "ORD" "t1"
    { sku := "DISNEY_1M", name := "Disney 1m", price_cents := 300, active := true }
    (by decide)).1 (by decide)

/-! ### `add_codes` -/

lemma newCodeRows_fields : ∀ (cs : List String) (sku now : String) (id0 : Nat),
    ∀ c ∈ newCodeRows sku now id0 cs, c.status = "available" ∧ c.sku = sku
  | [], _, _, _, c, hc => by simp [newCodeRows] at hc
  | p :: rest, sku, now, id0, c, hc => by
    rw [newCodeRows] at hc
    by_cases hp : py_strip p = ""
    · rw [if_pos hp] at hc
      exact newCodeRows_fields rest sku now id0 c hc
    · rw [if_neg hp] at hc
      rcases List.mem_cons.mp hc with h | h
      · rw [h]
        exact ⟨rfl, rfl⟩
      · exact newCodeRows_fields rest sku now (id0 + 1) c h

lemma add_codes_loop_spec : ∀ (cs : List String) (s : Store) (sku now : String) (n : Nat),
    (add_codes_loop s sku now cs n).1 = n + cs.countP (fun c => decide (py_strip c ≠ "")) ∧
    (add_codes_loop s sku now cs n).2.codes =
      s.codes ++ newCodeRows sku now s.next_code_id cs ∧
    (add_codes_loop s sku now cs n).2.products = s.products ∧
    (add_codes_loop s sku now cs n).2.users = s.users ∧
    (add_codes_loop s sku now cs n).2.orders = s.orders ∧
    (add_codes_loop s sku now cs n).2.balance_moves = s.balance_moves ∧
    (add_codes_loop s sku now cs n).2.next_move_id = s.next_move_id
  | [], s, sku, now, n => by
    simp [add_codes_loop, newCodeRows]
  | p :: rest, s, sku, now, n => by
    by_cases hp : py_strip p = ""
    · have hstep : add_codes_loop s sku now (p :: rest) n = add_codes_loop s sku now rest n := by
        rw [add_codes_loop, if_pos hp]
      have hrows : newCodeRows sku now s.next_code_id (p :: rest) =
          newCodeRows sku now s.next_code_id rest := by
        rw [newCodeRows, if_pos hp]
      have ih := add_codes_loop_spec rest s sku now n
      rw [hstep, hrows]
      refine ⟨?h1, ih.2.1, ih.2.2.1, ih.2.2.2.1, ih.2.2.2.2.1, ih.2.2.2.2.2.1,
        ih.2.2.2.2.2.2⟩
      rw [ih.1, List.countP_cons_of_neg]
      simp [hp]
    · have hstep : add_codes_loop s sku now (p :: rest) n =
          add_codes_loop
            { s with
                codes := s.codes ++
                  [{ id := s.next_code_id, sku := sku, code := py_strip p,
                     status := "available", created_at := now, delivered_at := none,
                     buyer_telegram_id := none, order_id := none }],
                next_code_id := s.next_code_id + 1 }
            sku now rest (n + 1) := by
        rw [add_codes_loop, if_neg hp]
      have hrows : newCodeRows sku now s.next_code_id (p :: rest) =
          { id := s.next_code_id, sku := sku, code := py_strip p,
            status := "available", created_at := now, delivered_at := none,
            buyer_telegram_id := none, order_id := none } ::
            newCodeRows sku now (s.next_code_id + 1) rest := by
        rw [newCodeRows, if_neg hp]
      have ih := add_codes_loop_spec rest
        { s with
            codes := s.codes ++
              [{ id := s.next_code_id, sku := sku, code := py_strip p,
                 status := "available", created_at := now, delivered_at := none,
                 buyer_telegram_id := none, order_id := none }],
            next_code_id := s.next_code_id + 1 }
        sku now (n + 1)
      obtain ⟨ih1, ih2, ih3, ih4, ih5, ih6, ih7⟩ := ih
      rw [hstep, hrows]
      refine ⟨?g1, ?g2, ih3, ih4, ih5, ih6, ih7⟩
      · rw [ih1, List.countP_cons_of_pos]
        · omega
        · simp [hp]
      · rw [ih2]
        simp [List.append_assoc]

/-- C10: `add_codes` implicitly creates an absent sku as an active product
named after the sku with price 0 (so its codes are immediately purchasable
at zero cost); blank or whitespace-only payloads are skipped; the return
value is the number of non-blank payloads; every inserted row has status
`available` and the stripped payload — duplicate payloads within the batch
are all inserted, never rejected. -/
theorem add_codes_spec (s : Store) (sku : String) (cs : List String) (now : String) :
    (add_codes s sku cs now).1 = cs.countP (fun c => decide (py_strip c ≠ "")) ∧
    (findProduct s sku = none →
      findProduct (add_codes s sku cs now).2 sku =
        some { sku := sku, name := sku, price_cents := 0, active := true }) ∧
    (add_codes s sku cs now).2.codes =
      s.codes ++ newCodeRows sku now s.next_code_id cs ∧
    (∀ c ∈ newCodeRows sku now s.next_code_id cs,
      c.status = "available" ∧ c.sku = sku) := by
  have hens : ensure_product s sku (some sku) (some 0) =
      if findProduct s sku = none then
        { s with products := s.products ++
            [{ sku := sku, name := sku, price_cents := 0, active := true }] }
      else s := by
    unfold ensure_product
    rcases h : findProduct s sku with _ | prod
    · simp [h, Option.getD]
    · simp [h]
  obtain ⟨h1, h2, h3, h4, h5, h6, h7⟩ :=
    add_codes_loop_spec cs (ensure_product s sku (some sku) (some 0)) sku now 0
  refine ⟨?g1, ?g2, ?g3, newCodeRows_fields cs sku now s.next_code_id⟩
  · rw [add_codes, h1, Nat.zero_add]
  · intro habs
    rw [add_codes, findProduct]
    have hprods : (add_codes_loop (ensure_product s sku (some sku) (some 0)) sku now cs 0).2.products =
        s.products ++ [{ sku := sku, name := sku, price_cents := 0, active := true }] := by
      rw [h3, hens, if_pos habs]
    rw [hprods, List.find?_append]
    have hnone : s.products.find? (fun p => p.sku = sku) = none := habs
    rw [hnone]
    simp
  · rw [add_codes, h2, hens]
    rcases h : findProduct s sku with _ | prod
    · simp [h]
    · simp [h]

/-- Witness for C10: loading the batch `["X", " ", "X"]` on a fresh sku
returns 2 (the blank is skipped, the duplicate is not rejected) and creates
the product with price 0, active. -/
theorem add_codes_spec_witness :
    (add_codes initStore "NEW" ["X", " ", "X"] "t").1 = 2 ∧
    findProduct (add_codes initStore "NEW" ["X", " ", "X"] "t").2 "NEW" =
      some { sku := "NEW", name := "NEW", price_cents := 0, active := true } := by
  obtain ⟨h1, h2, h3, h4⟩ := add_codes_spec initStore "NEW" ["X", " ", "X"] "t"
  refine ⟨?g1, h2 (by decide)⟩
  rw [h1]
  decide

/-! ### The ledger chain invariant (C3) -/

lemma chainOk_cons_iff (b : Int) (m : MoveRow) (rest : List MoveRow) :
    chainOk b (m :: rest) = true ↔
      m.balance_before_cents = b ∧
      m.balance_after_cents = m.balance_before_cents + m.amount_cents ∧
      chainOk m.balance_after_cents rest = true := by
  simp only [chainOk, Bool.and_eq_true, decide_eq_true_eq]
  exact and_assoc

lemma chainOk_snoc : ∀ (l : List MoveRow) (b : Int) (m : MoveRow),
    chainOk b l = true →
    m.balance_before_cents = endBal b l →
    m.balance_after_cents = m.balance_before_cents + m.amount_cents →
    chainOk b (l ++ [m]) = true
  | [], b, m, _, h1, h2 => by
    simp [endBal] at h1
    simp [chainOk, h1, h2]
  | x :: rest, b, m, h, h1, h2 => by
    rw [chainOk_cons_iff] at h
    rw [List.cons_append, chainOk_cons_iff]
    exact ⟨h.1, h.2.1, chainOk_snoc rest x.balance_after_cents m h.2.2 h1 h2⟩

lemma endBal_snoc : ∀ (l : List MoveRow) (b : Int) (m : MoveRow),
    endBal b (l ++ [m]) = m.balance_after_cents
  | [], _, _ => rfl
  | x :: rest, _, m => endBal_snoc rest x.balance_after_cents m

lemma endBal_eq_sumAmounts : ∀ (l : List MoveRow) (b : Int), chainOk b l = true →
    endBal b l = b + sumAmounts l
  | [], b, _ => by simp [endBal, sumAmounts]
  | m :: rest, b, h => by
    rw [chainOk_cons_iff] at h
    obtain ⟨hb, ha, hc⟩ := h
    have ih := endBal_eq_sumAmounts rest m.balance_after_cents hc
    show endBal m.balance_after_cents rest = b + sumAmounts (m :: rest)
    rw [ih]
    simp only [sumAmounts, List.foldr_cons]
    omega

lemma movesFor_snoc (s2 s : Store) (mv : MoveRow)
    (h : s2.balance_moves = s.balance_moves ++ [mv]) (tid2 : Int) :
    movesFor s2 tid2 =
      if mv.telegram_id = tid2 then movesFor s tid2 ++ [mv] else movesFor s tid2 := by
  unfold movesFor
  rw [h, List.filter_append]
  by_cases hm : mv.telegram_id = tid2
  · simp [List.filter, hm]
  · simp [List.filter, hm]

lemma movesFor_congr (s2 s : Store) (h : s2.balance_moves = s.balance_moves) (tid2 : Int) :
    movesFor s2 tid2 = movesFor s tid2 := by
  unfold movesFor
  rw [h]

/-- Core step: updating one existing user's balance to `before + amt` while
appending the matching movement row preserves the ledger invariant. -/
lemma LedgerInv_step (s s2 : Store) (hInv : LedgerInv s) (tid : Int) (u : UserRow)
    (hu : findUser s tid = some u) (ty ref now : String) (amt after : Int)
    (hafter : after = u.balance_cents + amt)
    (husers : s2.users = s.users.map (fun v =>
      if v.telegram_id = tid then { v with balance_cents := after } else v))
    (hmoves : s2.balance_moves = s.balance_moves ++
      [{ id := s.next_move_id, telegram_id := tid, type := ty, amount_cents := amt,
         balance_before_cents := u.balance_cents, balance_after_cents := after,
         ref := ref, created_at := now }])
    (hnext : s2.next_move_id = s.next_move_id + 1) :
    LedgerInv s2 := by
  have htid := findUser_some_tid s tid u hu
  have humem := findUser_mem s tid u hu
  constructor
  · rw [husers, List.map_map]
    have : ((fun u => u.telegram_id) ∘ (fun v =>
        if v.telegram_id = tid then { v with balance_cents := after } else v)) =
        (fun u : UserRow => u.telegram_id) := by
      funext v
      by_cases hv : v.telegram_id = tid <;> simp [Function.comp, hv]
    rw [this]
    exact hInv.tids_nodup
  · intro m hm
    rw [hmoves] at hm
    rw [husers]
    rcases List.mem_append.mp hm with h | h
    · obtain ⟨w, hw, hwt⟩ := hInv.moves_user m h
      refine ⟨if w.telegram_id = tid then { w with balance_cents := after } else w,
        List.mem_map_of_mem _ hw, ?ht⟩
      by_cases hb : w.telegram_id = tid
      · rw [if_pos hb]
        exact hwt
      · rw [if_neg hb]
        exact hwt
    · rw [List.mem_singleton] at h
      rw [h]
      refine ⟨{ u with balance_cents := after }, ?hm2, ?ht2⟩
      · have := List.mem_map_of_mem (fun v =>
          if v.telegram_id = tid then { v with balance_cents := after } else v) humem
        simpa [htid] using this
      · exact htid
  · intro m hm
    rw [hmoves] at hm
    rw [hnext]
    rcases List.mem_append.mp hm with h | h
    · have := hInv.ids_lt m h
      omega
    · rw [List.mem_singleton] at h
      rw [h]
      show s.next_move_id < s.next_move_id + 1
      omega
  · rw [hmoves]
    rw [List.pairwise_append]
    refine ⟨hInv.ids_sorted, List.pairwise_singleton _ _, ?hx⟩
    intro a ha b hb
    rw [List.mem_singleton] at hb
    rw [hb]
    exact hInv.ids_lt a ha
  · intro u2 hu2
    rw [husers] at hu2
    obtain ⟨v, hv, hveq⟩ := List.mem_map.mp hu2
    have hmv := movesFor_snoc s2 s _ hmoves
    by_cases hvt : v.telegram_id = tid
    · have hv_eq_u : v = u :=
        List.inj_on_of_nodup_map hInv.tids_nodup hv humem (by rw [hvt, htid])
      rw [if_pos hvt] at hveq
      obtain ⟨hc, he⟩ := hInv.chains v hv
      have hu2t : u2.telegram_id = tid := by
        rw [← hveq, hvt]
      have hml := hmv u2.telegram_id
      rw [if_pos (by simpa using hu2t.symm)] at hml
      rw [hml]
      have hmvf : movesFor s u2.telegram_id = movesFor s v.telegram_id := by
        rw [hu2t, hvt]
      rw [hmvf]
      constructor
      · refine chainOk_snoc _ 0 _ hc ?h1 ?h2
        · rw [he, hv_eq_u]
        · simp [hafter]
      · rw [endBal_snoc, ← hveq]
    · rw [if_neg hvt] at hveq
      obtain ⟨hc, he⟩ := hInv.chains v hv
      have hml := hmv v.telegram_id
      rw [if_neg (fun h => hvt h.symm)] at hml
      rw [← hveq, hml]
      exact ⟨hc, he⟩

lemma LedgerInv_frame (s s2 : Store) (hInv : LedgerInv s)
    (husers : s2.users = s.users) (hmoves : s2.balance_moves = s.balance_moves)
    (hnext : s2.next_move_id = s.next_move_id) : LedgerInv s2 := by
  constructor
  · rw [husers]
    exact hInv.tids_nodup
  · intro m hm
    rw [hmoves] at hm
    rw [husers]
    exact hInv.moves_user m hm
  · intro m hm
    rw [hmoves] at hm
    rw [hnext]
    exact hInv.ids_lt m hm
  · rw [hmoves]
    exact hInv.ids_sorted
  · intro u hu
    rw [husers] at hu
    rw [movesFor_congr s2 s hmoves]
    exact hInv.chains u hu

lemma LedgerInv_users_map (s s2 : Store) (hInv : LedgerInv s) (f : UserRow → UserRow)
    (hf : ∀ v, (f v).telegram_id = v.telegram_id ∧ (f v).balance_cents = v.balance_cents)
    (husers : s2.users = s.users.map f)
    (hmoves : s2.balance_moves = s.balance_moves)
    (hnext : s2.next_move_id = s.next_move_id) : LedgerInv s2 := by
  constructor
  · rw [husers, List.map_map]
    have hcomp : ((fun u => u.telegram_id) ∘ f) = (fun u : UserRow => u.telegram_id) := by
      funext v
      simp [Function.comp, (hf v).1]
    rw [hcomp]
    exact hInv.tids_nodup
  · intro m hm
    rw [hmoves] at hm
    obtain ⟨w, hw, hwt⟩ := hInv.moves_user m hm
    rw [husers]
    exact ⟨f w, List.mem_map_of_mem f hw, by rw [(hf w).1, hwt]⟩
  · intro m hm
    rw [hmoves] at hm
    rw [hnext]
    exact hInv.ids_lt m hm
  · rw [hmoves]
    exact hInv.ids_sorted
  · intro u2 hu2
    rw [husers] at hu2
    obtain ⟨v, hv, hveq⟩ := List.mem_map.mp hu2
    obtain ⟨hc, he⟩ := hInv.chains v hv
    rw [movesFor_congr s2 s hmoves, ← hveq, (hf v).1, (hf v).2]
    exact ⟨hc, he⟩

lemma LedgerInv_insert_user (s s2 : Store) (hInv : LedgerInv s) (newu : UserRow)
    (hfresh : findUser s newu.telegram_id = none)
    (hbal : newu.balance_cents = 0)
    (husers : s2.users = s.users ++ [newu])
    (hmoves : s2.balance_moves = s.balance_moves)
    (hnext : s2.next_move_id = s.next_move_id) : LedgerInv s2 := by
  have hnotin : ∀ v ∈ s.users, ¬ v.telegram_id = newu.telegram_id := by
    intro v hv
    have := List.find?_eq_none.mp hfresh v hv
    simpa using this
  constructor
  · rw [husers, List.map_append]
    refine hInv.tids_nodup.append (List.nodup_singleton _) ?hdj
    intro a ha hb
    simp only [List.map_cons, List.map_nil, List.mem_singleton] at hb
    obtain ⟨v, hv, hvt⟩ := List.mem_map.mp ha
    exact hnotin v hv (by rw [hvt, hb])
  · intro m hm
    rw [hmoves] at hm
    obtain ⟨w, hw, hwt⟩ := hInv.moves_user m hm
    rw [husers]
    exact ⟨w, List.mem_append_left _ hw, hwt⟩
  · intro m hm
    rw [hmoves] at hm
    rw [hnext]
    exact hInv.ids_lt m hm
  · rw [hmoves]
    exact hInv.ids_sorted
  · intro u2 hu2
    rw [husers] at hu2
    rw [movesFor_congr s2 s hmoves]
    rcases List.mem_append.mp hu2 with h | h
    · exact hInv.chains u2 h
    · rw [List.mem_singleton] at h
      rw [h]
      have hnil : movesFor s newu.telegram_id = [] := by
        unfold movesFor
        rw [List.filter_eq_nil_iff]
        intro m hm
        obtain ⟨w, hw, hwt⟩ := hInv.moves_user m hm
        simp only [decide_eq_true_eq]
        intro hmt
        exact hnotin w hw (by rw [hwt, hmt])
      rw [hnil]
      constructor
      · rfl
      · rw [hbal]
        rfl

/-- Every caller of `set_balance_with_move` in the bot passes
`new_balance = current balance + amount`; under that discipline the ledger
invariant is preserved. -/
lemma LedgerInv_sbwm (s : Store) (hInv : LedgerInv s) (tid : Int) (nb amt : Int)
    (ty ref now : String) (hnb : nb = get_balance s tid + amt) :
    LedgerInv (set_balance_with_move s tid nb ty amt ref now).1 := by
  rcases hu : findUser s tid with _ | u
  · have hstep : (set_balance_with_move s tid nb ty amt ref now).1 = s := by
      unfold set_balance_with_move
      rw [hu]
    rw [hstep]
    exact hInv
  · have hgb : get_balance s tid = u.balance_cents := by
      unfold get_balance
      rw [hu]
    have hstep : (set_balance_with_move s tid nb ty amt ref now).1 =
        { s with
            users := s.users.map (fun v =>
              if v.telegram_id = tid then { v with balance_cents := nb } else v),
            balance_moves := s.balance_moves ++
              [{ id := s.next_move_id, telegram_id := tid, type := ty,
                 amount_cents := amt, balance_before_cents := u.balance_cents,
                 balance_after_cents := nb, ref := ref, created_at := now }],
            next_move_id := s.next_move_id + 1 } := by
      unfold set_balance_with_move
      rw [hu]
    rw [hstep]
    exact LedgerInv_step s _ hInv tid u hu ty ref now amt nb (by omega) rfl rfl rfl

lemma LedgerInv_applyOp (s : Store) (hInv : LedgerInv s) (op : Op) :
    LedgerInv (applyOp s op) := by
  cases op with
  | start tid username first_name now =>
    show LedgerInv (upsert_user s tid username first_name now)
    rcases hu : findUser s tid with _ | u
    · have hstep : upsert_user s tid username first_name now =
          { s with users := s.users ++
              [{ telegram_id := tid, username := username, first_name := first_name,
                 balance_cents := 0, created_at := now }] } := by
        unfold upsert_user
        rw [hu]
      rw [hstep]
      exact LedgerInv_insert_user s _ hInv _ hu rfl rfl rfl rfl
    · have hstep : upsert_user s tid username first_name now =
          { s with users := s.users.map (fun v =>
              if v.telegram_id = tid then
                { v with username := username, first_name := first_name }
              else v) } := by
        unfold upsert_user
        rw [hu]
      rw [hstep]
      refine LedgerInv_users_map s _ hInv _ ?hf rfl rfl rfl
      intro v
      by_cases hv : v.telegram_id = tid
      · rw [if_pos hv]
        exact ⟨rfl, rfl⟩
      · rw [if_neg hv]
        exact ⟨rfl, rfl⟩
  | purchase tid sku order_id now =>
    show LedgerInv (deliver_purchase s tid sku order_id now).2
    rcases hok : (deliver_purchase s tid sku order_id now).1.isOk with _ | _
    · rcases hp : findProduct s sku with _ | prod
      · rw [deliver_purchase_noProduct s tid sku order_id now hp]
        exact hInv
      · rcases ha : prod.active with _ | _
        · rw [deliver_purchase_inactive s tid sku order_id now prod hp ha]
          exact hInv
        · rcases hu : findUser s tid with _ | u
          · rw [deliver_purchase_noUser s tid sku order_id now prod hp ha hu]
            exact hInv
          · by_cases hbal : u.balance_cents < prod.price_cents
            · rw [deliver_purchase_insufficient s tid sku order_id now prod u hp ha hu hbal]
              exact hInv
            · rcases hpick : pickCode s sku with _ | c
              · rw [deliver_purchase_noStock s tid sku order_id now prod u hp ha hu hbal hpick]
                exact hInv
              · rw [deliver_purchase_success s tid sku order_id now prod u c hp ha hu hbal hpick] at hok
                simp [PurchaseResult.isOk] at hok
    · obtain ⟨prod, u, c, hp, ha, hu, hbal, hpick, heq⟩ :=
        deliver_purchase_isOk_inv s tid sku order_id now hok
      rw [heq]
      exact LedgerInv_step s _ hInv tid u hu "purchase" ("order:" ++ order_id) now
        (-prod.price_cents) (u.balance_cents - prod.price_cents) (by omega) rfl rfl rfl
  | topup username cents admin_ref now =>
    show LedgerInv (admin_sumar s username cents admin_ref now)
    rcases hr : user_id_by_username s username with _ | uid
    · have hstep : admin_sumar s username cents admin_ref now = s := by
        simp [admin_sumar, hr]
      rw [hstep]
      exact hInv
    · by_cases hc : cents ≤ 0
      · have hstep : admin_sumar s username cents admin_ref now = s := by
          simp [admin_sumar, hr, hc]
        rw [hstep]
        exact hInv
      · have hstep : admin_sumar s username cents admin_ref now =
            (set_balance_with_move s uid (get_balance s uid + cents) "topup" cents
              admin_ref now).1 := by
          simp [admin_sumar, hr, hc]
        rw [hstep]
        exact LedgerInv_sbwm s hInv uid _ cents "topup" admin_ref now rfl
  | deduct username cents admin_ref now =>
    show LedgerInv (admin_restar s username cents admin_ref now)
    rcases hr : user_id_by_username s username with _ | uid
    · have hstep : admin_restar s username cents admin_ref now = s := by
        simp [admin_restar, hr]
      rw [hstep]
      exact hInv
    · by_cases hc : cents ≤ 0
      · have hstep : admin_restar s username cents admin_ref now = s := by
          simp [admin_restar, hr, hc]
        rw [hstep]
        exact hInv
      · have hstep : admin_restar s username cents admin_ref now =
            (set_balance_with_move s uid (get_balance s uid - cents) "admin_adjust"
              (-cents) admin_ref now).1 := by
          simp [admin_restar, hr, hc]
        rw [hstep]
        exact LedgerInv_sbwm s hInv uid _ (-cents) "admin_adjust" admin_ref now (by omega)
  | addCodes sku codes now =>
    show LedgerInv (add_codes s sku codes now).2
    obtain ⟨_, _, _, h4, _, h6, h7⟩ :=
      add_codes_loop_spec codes (ensure_product s sku (some sku) (some 0)) sku now 0
    have hens : (ensure_product s sku (some sku) (some 0)).users = s.users ∧
        (ensure_product s sku (some sku) (some 0)).balance_moves = s.balance_moves ∧
        (ensure_product s sku (some sku) (some 0)).next_move_id = s.next_move_id := by
      unfold ensure_product
      rcases h : findProduct s sku with _ | prod
      · exact ⟨rfl, rfl, rfl⟩
      · exact ⟨rfl, rfl, rfl⟩
    refine LedgerInv_frame s _ hInv ?h1 ?h2 ?h3
    · rw [add_codes, h4, hens.1]
    · rw [add_codes, h6, hens.2.1]
    · rw [add_codes, h7, hens.2.2]
  | price sku cents =>
    exact LedgerInv_frame s _ hInv rfl rfl rfl
  | rename sku name =>
    exact LedgerInv_frame s _ hInv rfl rfl rfl
  | activate sku active =>
    exact LedgerInv_frame s _ hInv rfl rfl rfl

lemma LedgerInv_initStore : LedgerInv initStore := by
  constructor
  · simp [initStore]
  · intro m hm
    simp [initStore] at hm
  · intro m hm
    simp [initStore] at hm
  · simp [initStore]
  · intro u hu
    simp [initStore] at hu

lemma LedgerInv_runOps : ∀ (ops : List Op) (s : Store), LedgerInv s →
    LedgerInv (runOps s ops)
  | [], _, hInv => hInv
  | op :: rest, s, hInv =>
    LedgerInv_runOps rest (applyOp s op) (LedgerInv_applyOp s hInv op)

/-- C3: in every store reachable by a sequence of bot operations
(registrations, purchases, top-ups, admin adjustments, catalog edits), the
`balance_moves` rows of each account form an exact chain in stored order —
which is id order, their ids being strictly increasing —
(`balance_after[i] = balance_before[i] + amount[i]` and
`balance_before[i+1] = balance_after[i]`, starting from the initial balance
0), and the sum of the signed amounts equals the account's stored
balance. -/
theorem ledger_reconstructs_balance (ops : List Op) (u : UserRow)
    (hu : u ∈ (runOps initStore ops).users) :
    chainOk 0 (movesFor (runOps initStore ops) u.telegram_id) = true ∧
    (movesFor (runOps initStore ops) u.telegram_id).Pairwise (fun a b => a.id < b.id) ∧
    sumAmounts (movesFor (runOps initStore ops) u.telegram_id) = u.balance_cents := by
  have hInv := LedgerInv_runOps ops initStore LedgerInv_initStore
  obtain ⟨hc, he⟩ := hInv.chains u hu
  refine ⟨hc, ?hpw, ?hsum⟩
  · exact List.Pairwise.sublist (List.filter_sublist _) hInv.ids_sorted
  · have hs := endBal_eq_sumAmounts (movesFor (runOps initStore ops) u.telegram_id) 0 hc
    omega

/-- Witness for C3: after `/start` and a 100-cent top-up, the single
movement chains 0 → 100 and sums to the stored balance 100. -/
theorem ledger_reconstructs_balance_witness :
    chainOk 0 (movesFor (runOps initStore demoOps) 1) = true ∧
    (movesFor (runOps initStore demoOps) 1).Pairwise (fun a b => a.id < b.id) ∧
    sumAmounts (movesFor (runOps initStore demoOps) 1) = 100 := by
  have h := ledger_reconstructs_balance demoOps
    { telegram_id := 1, username := some "alice", first_name := none,
      balance_cents := 100, created_at := "t0" } (by decide)
  exact h

/-! ### Non-negativity of balances (C5) -/

lemma nonneg_applyOp (s : Store) (hs : ∀ v ∈ s.users, 0 ≤ v.balance_cents) (op : Op)
    (hop : op.isDeduct = false) :
    ∀ v ∈ (applyOp s op).users, 0 ≤ v.balance_cents := by
  cases op with
  | start tid username first_name now =>
    show ∀ v ∈ (upsert_user s tid username first_name now).users, 0 ≤ v.balance_cents
    rcases hu : findUser s tid with _ | u
    · have hstep : upsert_user s tid username first_name now =
          { s with users := s.users ++
              [{ telegram_id := tid, username := username, first_name := first_name,
                 balance_cents := 0, created_at := now }] } := by
        unfold upsert_user
        rw [hu]
      rw [hstep]
      intro v hv
      rcases List.mem_append.mp hv with h | h
      · exact hs v h
      · rw [List.mem_singleton] at h
        rw [h]
    · have hstep : upsert_user s tid username first_name now =
          { s with users := s.users.map (fun v =>
              if v.telegram_id = tid then
                { v with username := username, first_name := first_name }
              else v) } := by
        unfold upsert_user
        rw [hu]
      rw [hstep]
      intro v hv
      obtain ⟨w, hw, hweq⟩ := List.mem_map.mp hv
      have h0 := hs w hw
      rw [← hweq]
      by_cases hwt : w.telegram_id = tid
      · rw [if_pos hwt]
        exact h0
      · rw [if_neg hwt]
        exact h0
  | purchase tid sku order_id now =>
    show ∀ v ∈ (deliver_purchase s tid sku order_id now).2.users, 0 ≤ v.balance_cents
    rcases hok : (deliver_purchase s tid sku order_id now).1.isOk with _ | _
    · rcases hp : findProduct s sku with _ | prod
      · rw [deliver_purchase_noProduct s tid sku order_id now hp]
        exact hs
      · rcases ha : prod.active with _ | _
        · rw [deliver_purchase_inactive s tid sku order_id now prod hp ha]
          exact hs
        · rcases hu : findUser s tid with _ | u
          · rw [deliver_purchase_noUser s tid sku order_id now prod hp ha hu]
            exact hs
          · by_cases hbal : u.balance_cents < prod.price_cents
            · rw [deliver_purchase_insufficient s tid sku order_id now prod u hp ha hu hbal]
              exact hs
            · rcases hpick : pickCode s sku with _ | c
              · rw [deliver_purchase_noStock s tid sku order_id now prod u hp ha hu hbal hpick]
                exact hs
              · rw [deliver_purchase_success s tid sku order_id now prod u c hp ha hu hbal hpick]
                  at hok
                simp [PurchaseResult.isOk] at hok
    · obtain ⟨prod, u, c, hp, ha, hu, hbal, hpick, heq⟩ :=
        deliver_purchase_isOk_inv s tid sku order_id now hok
      rw [heq]
      intro v hv
      obtain ⟨w, hw, hweq⟩ := List.mem_map.mp hv
      have h0 := hs w hw
      rw [← hweq]
      by_cases hwt : w.telegram_id = tid
      · rw [if_pos hwt]
        show 0 ≤ u.balance_cents - prod.price_cents
        omega
      · rw [if_neg hwt]
        exact h0
  | topup username cents admin_ref now =>
    show ∀ v ∈ (admin_sumar s username cents admin_ref now).users, 0 ≤ v.balance_cents
    rcases hr : user_id_by_username s username with _ | uid
    · have hstep : admin_sumar s username cents admin_ref now = s := by
        simp [admin_sumar, hr]
      rw [hstep]
      exact hs
    · by_cases hc : cents ≤ 0
      · have hstep : admin_sumar s username cents admin_ref now = s := by
          simp [admin_sumar, hr, hc]
        rw [hstep]
        exact hs
      · have hstep : admin_sumar s username cents admin_ref now =
            (set_balance_with_move s uid (get_balance s uid + cents) "topup" cents
              admin_ref now).1 := by
          simp [admin_sumar, hr, hc]
        rw [hstep]
        rcases hu : findUser s uid with _ | w
        · have hstep2 : (set_balance_with_move s uid (get_balance s uid + cents) "topup"
              cents admin_ref now).1 = s := by
            unfold set_balance_with_move
            rw [hu]
          rw [hstep2]
          exact hs
        · have hgb : get_balance s uid = w.balance_cents := by
            unfold get_balance
            rw [hu]
          have hw0 := hs w (findUser_mem s uid w hu)
          have hstep2 : (set_balance_with_move s uid (get_balance s uid + cents) "topup"
              cents admin_ref now).1 =
              { s with
                  users := s.users.map (fun v =>
                    if v.telegram_id = uid then
                      { v with balance_cents := get_balance s uid + cents }
                    else v),
                  balance_moves := s.balance_moves ++
                    [{ id := s.next_move_id, telegram_id := uid, type := "topup",
                       amount_cents := cents, balance_before_cents := w.balance_cents,
                       balance_after_cents := get_balance s uid + cents,
                       ref := admin_ref, created_at := now }],
                  next_move_id := s.next_move_id + 1 } := by
            unfold set_balance_with_move
            rw [hu]
          rw [hstep2]
          intro v hv
          obtain ⟨x, hx, hxeq⟩ := List.mem_map.mp hv
          have hx0 := hs x hx
          rw [← hxeq]
          by_cases hxt : x.telegram_id = uid
          · rw [if_pos hxt]
            show 0 ≤ get_balance s uid + cents
            omega
          · rw [if_neg hxt]
            exact hx0
  | deduct username cents admin_ref now =>
    simp [Op.isDeduct] at hop
  | addCodes sku codes now =>
    show ∀ v ∈ (add_codes s sku codes now).2.users, 0 ≤ v.balance_cents
    obtain ⟨_, _, _, h4, _, _, _⟩ :=
      add_codes_loop_spec codes (ensure_product s sku (some sku) (some 0)) sku now 0
    have hens : (ensure_product s sku (some sku) (some 0)).users = s.users := by
      unfold ensure_product
      rcases h : findProduct s sku with _ | prod
      · rfl
      · rfl
    rw [add_codes, h4, hens]
    exact hs
  | price sku cents =>
    exact hs
  | rename sku name =>
    exact hs
  | activate sku active =>
    exact hs

lemma nonneg_runOps : ∀ (ops : List Op) (s : Store),
    (∀ v ∈ s.users, 0 ≤ v.balance_cents) →
    (∀ op ∈ ops, op.isDeduct = false) →
    ∀ v ∈ (runOps s ops).users, 0 ≤ v.balance_cents
  | [], _, hs, _ => hs
  | op :: rest, s, hs, hops =>
    nonneg_runOps rest (applyOp s op)
      (nonneg_applyOp s hs op (hops op (List.mem_cons_self op rest)))
      (fun o ho => hops o (List.mem_cons_of_mem op ho))

/-- C5 counterexample: the admin deduction `/restar` performs no
sufficiency check, so a freshly registered account (balance 0) is driven to
the negative balance -1 by a 1-cent deduction — the stored balance of a
reachable account can be negative. -/
theorem negative_balance_reachable_cex :
    get_balance (runOps initStore
      [.start 7 (some "bob") none "t0", .deduct "bob" 1 "a" "t1"]) 7 = -1 := by
  decide

/-- C5 (amended): every account reachable through registration, purchases
and admin top-ups keeps a non-negative balance (registration starts at 0,
purchases are guarded by the sufficiency check, top-ups add positive
amounts); only the admin deduction `/restar` — which the spec itself allows
to drive a balance negative — can break non-negativity. -/
theorem balances_nonneg_without_deduct (ops : List Op)
    (hops : ∀ op ∈ ops, op.isDeduct = false) (u : UserRow)
    (hu : u ∈ (runOps initStore ops).users) :
    0 ≤ u.balance_cents := by
  refine nonneg_runOps ops initStore ?hinit hops u hu
  intro v hv
  simp [initStore] at hv

/-- Witness for the amended C5: after the demo history the registered
account holds the non-negative balance 100. -/
theorem balances_nonneg_without_deduct_witness :
    (0 : Int) ≤
      ({ telegram_id := 1, username := some "alice", first_name := none,
         balance_cents := 100, created_at := "t0" } : UserRow).balance_cents :=
  balances_nonneg_without_deduct demoOps (by decide) _ (by decide)

/-! ### Concurrent claims (C2): effects of one successful claim -/

lemma pickCode_none_iff (s : Store) (sku : String) :
    pickCode s sku = none ↔ availableCodes s sku = [] := by
  unfold pickCode
  rcases h : availableCodes s sku with _ | ⟨x, r⟩ <;> simp

lemma countOk_cons_ok (name cv oid : String) (nb : Int) (rs : List PurchaseResult) :
    countOk (.ok name cv oid nb :: rs) = countOk rs + 1 := by
  unfold countOk
  rw [List.countP_cons_of_pos]
  rfl

lemma countOk_cons_noStock (rs : List PurchaseResult) :
    countOk (.noStock :: rs) = countOk rs := by
  unfold countOk
  rw [List.countP_cons_of_neg]
  simp [PurchaseResult.isOk]

lemma countNoStock_cons_ok (name cv oid : String) (nb : Int) (rs : List PurchaseResult) :
    countNoStock (.ok name cv oid nb :: rs) = countNoStock rs := by
  unfold countNoStock
  rw [List.countP_cons_of_neg]
  simp

lemma countNoStock_cons_noStock (rs : List PurchaseResult) :
    countNoStock (.noStock :: rs) = countNoStock rs + 1 := by
  unfold countNoStock
  rw [List.countP_cons_of_pos]
  simp

lemma okPayloads_cons_ok (name cv oid : String) (nb : Int) (rs : List PurchaseResult) :
    okPayloads (.ok name cv oid nb :: rs) = cv :: okPayloads rs := rfl

lemma okPayloads_cons_noStock (rs : List PurchaseResult) :
    okPayloads (.noStock :: rs) = okPayloads rs := rfl

lemma availableCodes_purchaseWrite (s : Store) (tid : Int) (skuW sku : String)
    (oid now : String) (price balance : Int) (cid : Nat) :
    availableCodes (purchaseWrite s tid skuW oid now price balance cid) sku =
      (availableCodes s sku).filter (fun d => decide (d.id ≠ cid)) := by
  show (s.codes.map (fun cr =>
      if cr.id = cid then
        { cr with
            status := "delivered", delivered_at := some now,
            buyer_telegram_id := some tid, order_id := some oid }
      else cr)).filter (fun cr => cr.sku = sku && cr.status = "available") =
    (s.codes.filter (fun cr => cr.sku = sku && cr.status = "available")).filter
      (fun d => decide (d.id ≠ cid))
  rw [List.filter_map, List.filter_filter]
  have hpq : ∀ a ∈ s.codes,
      ((fun cr : CodeRow => (cr.sku = sku && cr.status = "available" : Bool)) ∘
        (fun cr : CodeRow =>
          if cr.id = cid then
            { cr with
                status := "delivered", delivered_at := some now,
                buyer_telegram_id := some tid, order_id := some oid }
          else cr)) a =
      (fun a : CodeRow =>
        (decide (a.id ≠ cid) && (a.sku = sku && a.status = "available") : Bool)) a := by
    intro a _
    by_cases hc : a.id = cid
    · simp [Function.comp, hc]
    · simp [Function.comp, hc]
  rw [List.filter_congr hpq]
  have hid : ∀ a ∈ s.codes.filter (fun a : CodeRow =>
      (decide (a.id ≠ cid) && (a.sku = sku && a.status = "available") : Bool)),
      (fun cr : CodeRow =>
        if cr.id = cid then
          { cr with
              status := "delivered", delivered_at := some now,
              buyer_telegram_id := some tid, order_id := some oid }
        else cr) a = id a := by
    intro a ha
    rw [List.mem_filter] at ha
    have hno : ¬ a.id = cid := by
      have h2 := ha.2
      simp only [Bool.and_eq_true, decide_eq_true_eq] at h2
      exact h2.1
    simp [hno]
  rw [List.map_congr_left hid, List.map_id]

lemma purchaseWrite_codes_ids (s : Store) (tid : Int) (skuW oid now : String)
    (price balance : Int) (cid : Nat) :
    ((purchaseWrite s tid skuW oid now price balance cid).codes.map (fun cr => cr.id)) =
      s.codes.map (fun cr => cr.id) := by
  have hc0 : (purchaseWrite s tid skuW oid now price balance cid).codes =
      s.codes.map (fun cr =>
        if cr.id = cid then
          { cr with
              status := "delivered", delivered_at := some now,
              buyer_telegram_id := some tid, order_id := some oid }
        else cr) := rfl
  rw [hc0, List.map_map]
  apply List.map_congr_left
  intro a _
  by_cases hc : a.id = cid
  · simp [Function.comp, hc]
  · simp [Function.comp, hc]

lemma avail_ids_nodup (s : Store) (sku : String)
    (h : (s.codes.map (fun cr => cr.id)).Nodup) :
    ((availableCodes s sku).map (fun cr => cr.id)).Nodup :=
  List.Nodup.sublist (List.Sublist.map _ (List.filter_sublist _)) h

lemma length_filter_ne : ∀ (l : List CodeRow) (c : CodeRow), c ∈ l →
    ((l.map (fun d => d.id)).Nodup) →
    (l.filter (fun d => decide (d.id ≠ c.id))).length = l.length - 1
  | [], c, hmem, _ => by simp at hmem
  | x :: rest, c, hmem, hnd => by
    simp only [List.map_cons, List.nodup_cons, List.mem_map] at hnd
    obtain ⟨hxno, hnd2⟩ := hnd
    by_cases hx : x.id = c.id
    · rw [List.filter_cons_of_neg (by simp [hx])]
      have hall : rest.filter (fun d => decide (d.id ≠ c.id)) = rest := by
        rw [List.filter_eq_self]
        intro d hd
        simp only [decide_eq_true_eq]
        intro hdc
        exact hxno ⟨d, hd, by rw [hdc, hx]⟩
      rw [hall]
      simp
    · rw [List.filter_cons_of_pos (by simp [hx])]
      have hcrest : c ∈ rest := by
        rcases List.mem_cons.mp hmem with h | h
        · exact absurd (by rw [h]) hx
        · exact h
      have hlen := length_filter_ne rest c hcrest hnd2
      have hpos : 0 < rest.length := List.length_pos_of_mem hcrest
      simp only [List.length_cons]
      omega

lemma code_notin_filter (l : List CodeRow) (c : CodeRow) (hmem : c ∈ l)
    (hpay : (l.map (fun d => d.code)).Nodup) :
    c.code ∉ (l.filter (fun d => decide (d.id ≠ c.id))).map (fun d => d.code) := by
  intro hin
  obtain ⟨d, hd, hdc⟩ := List.mem_map.mp hin
  rw [List.mem_filter] at hd
  have hne : d.id ≠ c.id := by simpa using hd.2
  have hdc2 : d = c := List.inj_on_of_nodup_map hpay hd.1 hmem hdc
  rw [hdc2] at hne
  exact hne rfl

lemma runPurchases_cons (s : Store) (sku : String) (tid : Int) (oid now : String)
    (rest : List (Int × String × String)) :
    runPurchases s sku ((tid, oid, now) :: rest) =
      ((deliver_purchase s tid sku oid now).1 ::
        (runPurchases (deliver_purchase s tid sku oid now).2 sku rest).1,
       (runPurchases (deliver_purchase s tid sku oid now).2 sku rest).2) := rfl

lemma runPurchases_ind : ∀ (buyers : List (Int × String × String)) (s : Store)
    (sku : String) (prod : ProductRow),
    findProduct s sku = some prod → prod.active = true →
    (s.codes.map (fun cr => cr.id)).Nodup →
    (buyers.map (fun b => b.1)).Nodup →
    (∀ b ∈ buyers, ∃ u, findUser s b.1 = some u ∧ prod.price_cents ≤ u.balance_cents) →
    countOk (runPurchases s sku buyers).1 = min buyers.length (stock_for_sku s sku) ∧
    countNoStock (runPurchases s sku buyers).1 = buyers.length - stock_for_sku s sku ∧
    stock_for_sku (runPurchases s sku buyers).2 sku =
      stock_for_sku s sku - buyers.length ∧
    (∀ p ∈ okPayloads (runPurchases s sku buyers).1,
      p ∈ (availableCodes s sku).map (fun cr => cr.code)) ∧
    (((availableCodes s sku).map (fun cr => cr.code)).Nodup →
      (okPayloads (runPurchases s sku buyers).1).Nodup)
  | [], s, sku, prod, hp, ha, hids, hbuy, hreg => by
    simp [runPurchases, countOk, countNoStock, okPayloads]
  | (tid, oid, now) :: rest, s, sku, prod, hp, ha, hids, hbuy, hreg => by
    obtain ⟨u, hu, hubal⟩ := hreg (tid, oid, now) (List.mem_cons_self _ _)
    have hbal2 : ¬ u.balance_cents < prod.price_cents := by omega
    simp only [List.map_cons, List.nodup_cons] at hbuy
    obtain ⟨hnotin, hbuy2⟩ := hbuy
    rcases hpick : pickCode s sku with _ | c
    · have hav := (pickCode_none_iff s sku).mp hpick
      have hstock : stock_for_sku s sku = 0 := by
        unfold stock_for_sku
        rw [hav]
        rfl
      have hdp := deliver_purchase_noStock s tid sku oid now prod u hp ha hu hbal2 hpick
      have hrun : runPurchases s sku ((tid, oid, now) :: rest) =
          (PurchaseResult.noStock :: (runPurchases s sku rest).1,
           (runPurchases s sku rest).2) := by
        rw [runPurchases_cons, hdp]
      obtain ⟨ih1, ih2, ih3, ih4, ih5⟩ := runPurchases_ind rest s sku prod hp ha hids hbuy2
        (fun b hb => hreg b (List.mem_cons_of_mem _ hb))
      rw [hrun]
      refine ⟨?g1, ?g2, ?g3, ?g4, ?g5⟩
      · rw [countOk_cons_noStock, ih1, hstock, List.length_cons]
        omega
      · rw [countNoStock_cons_noStock, ih2, hstock, List.length_cons]
        omega
      · rw [ih3, hstock, List.length_cons]
        omega
      · rw [okPayloads_cons_noStock]
        exact ih4
      · intro hpay
        rw [okPayloads_cons_noStock]
        exact ih5 hpay
    · obtain ⟨hcmem, hcmin⟩ := pickCode_some_spec s sku c hpick
      have hdp := deliver_purchase_success s tid sku oid now prod u c hp ha hu hbal2 hpick
      have hrun : runPurchases s sku ((tid, oid, now) :: rest) =
          (PurchaseResult.ok prod.name c.code oid (u.balance_cents - prod.price_cents) ::
            (runPurchases
              (purchaseWrite s tid sku oid now prod.price_cents u.balance_cents c.id)
              sku rest).1,
           (runPurchases
              (purchaseWrite s tid sku oid now prod.price_cents u.balance_cents c.id)
              sku rest).2) := by
        rw [runPurchases_cons, hdp]
      have hp1 : findProduct
          (purchaseWrite s tid sku oid now prod.price_cents u.balance_cents c.id) sku =
          some prod := hp
      have hids1 : ((purchaseWrite s tid sku oid now prod.price_cents u.balance_cents
          c.id).codes.map (fun cr => cr.id)).Nodup := by
        rw [purchaseWrite_codes_ids]
        exact hids
      have hreg1 : ∀ b ∈ rest, ∃ w, findUser
          (purchaseWrite s tid sku oid now prod.price_cents u.balance_cents c.id) b.1 =
          some w ∧ prod.price_cents ≤ w.balance_cents := by
        intro b hb
        obtain ⟨w, hw, hwb⟩ := hreg b (List.mem_cons_of_mem _ hb)
        have hbtid : ¬ b.1 = tid := by
          intro hEq
          exact hnotin (hEq ▸ List.mem_map_of_mem (fun b => b.1) hb)
        have hwt := findUser_some_tid s b.1 w hw
        refine ⟨w, ?hfind, hwb⟩
        rw [findUser_purchaseWrite, hw]
        simp only [Option.map_some']
        rw [if_neg (by rw [hwt]; exact hbtid)]
      have hav1 : availableCodes
          (purchaseWrite s tid sku oid now prod.price_cents u.balance_cents c.id) sku =
          (availableCodes s sku).filter (fun d => decide (d.id ≠ c.id)) :=
        availableCodes_purchaseWrite s tid sku sku oid now prod.price_cents
          u.balance_cents c.id
      have hnd_avail := avail_ids_nodup s sku hids
      have hlen1 : stock_for_sku
          (purchaseWrite s tid sku oid now prod.price_cents u.balance_cents c.id) sku =
          stock_for_sku s sku - 1 := by
        unfold stock_for_sku
        rw [hav1]
        exact length_filter_ne _ c hcmem hnd_avail
      have hpos : 0 < stock_for_sku s sku := List.length_pos_of_mem hcmem
      obtain ⟨ih1, ih2, ih3, ih4, ih5⟩ := runPurchases_ind rest
        (purchaseWrite s tid sku oid now prod.price_cents u.balance_cents c.id)
        sku prod hp1 ha hids1 hbuy2 hreg1
      rw [hrun]
      refine ⟨?k1, ?k2, ?k3, ?k4, ?k5⟩
      · rw [countOk_cons_ok, ih1, hlen1, List.length_cons]
        omega
      · rw [countNoStock_cons_ok, ih2, hlen1, List.length_cons]
        omega
      · rw [ih3, hlen1, List.length_cons]
        omega
      · rw [okPayloads_cons_ok]
        intro p hpmem
        rcases List.mem_cons.mp hpmem with h | h
        · rw [h]
          exact List.mem_map_of_mem _ hcmem
        · have h2 := ih4 p h
          rw [hav1] at h2
          exact (List.Sublist.map (fun cr : CodeRow => cr.code)
            (List.filter_sublist _)).subset h2
      · intro hpay
        rw [okPayloads_cons_ok, List.nodup_cons]
        constructor
        · intro hin
          have h2 := ih4 c.code hin
          rw [hav1] at h2
          exact code_notin_filter _ c hcmem hpay h2
        · refine ih5 ?hpay1
          rw [hav1]
          exact List.Nodup.sublist (List.Sublist.map _ (List.filter_sublist _)) hpay

/-- C2 (amended): concurrency is modelled by quantifying over every
sequential schedule of the atomic purchase transactions (each
`deliver_purchase` runs as one transaction, so any concurrent execution is
equivalent to some ordering).  For an active product and N purchase calls
by pairwise-distinct registered buyers, each with sufficient balance, on a
sku with K available units: exactly `min N K` succeed, the other
`N − min N K` fail with the out-of-stock error, exactly `min N K` inventory
units are consumed, and — provided the available payloads of the sku are
pairwise distinct — the successful purchases return pairwise-distinct code
payloads.  (The payload-distinctness proviso is necessary: the store
accepts duplicate payloads at load time, see the counterexample.) -/
theorem concurrent_claims (s : Store) (sku : String) (prod : ProductRow)
    (buyers : List (Int × String × String))
    (hp : findProduct s sku = some prod) (ha : prod.active = true)
    (hids : (s.codes.map (fun cr => cr.id)).Nodup)
    (hbuy : (buyers.map (fun b => b.1)).Nodup)
    (hreg : ∀ b ∈ buyers, ∃ u, findUser s b.1 = some u ∧
      prod.price_cents ≤ u.balance_cents) :
    countOk (runPurchases s sku buyers).1 =
      min buyers.length (stock_for_sku s sku) ∧
    countNoStock (runPurchases s sku buyers).1 =
      buyers.length - stock_for_sku s sku ∧
    stock_for_sku (runPurchases s sku buyers).2 sku =
      stock_for_sku s sku - buyers.length ∧
    (((availableCodes s sku).map (fun cr => cr.code)).Nodup →
      (okPayloads (runPurchases s sku buyers).1).Nodup) := by
  obtain ⟨h1, h2, h3, _, h5⟩ := runPurchases_ind buyers s sku prod hp ha hids hbuy hreg
  exact ⟨h1, h2, h3, h5⟩

/-- C2 counterexample: the store accepts two inventory units with the same
payload string for one sku; two distinct buyers with sufficient balance
then both succeed and both receive the payload `SAMECODE` — "no two
successful purchases ever return the same code payload for the same SKU"
is false as stated. -/
theorem concurrent_claims_cex :
    okPayloads (runPurchases dupPayloadStore "GIFT"
      [(1, "O1", "t1"), (2, "O2", "t2")]).1 = ["SAMECODE", "SAMECODE"] ∧
    ¬ (okPayloads (runPurchases dupPayloadStore "GIFT"
      [(1, "O1", "t1"), (2, "O2", "t2")]).1).Nodup := by
  constructor
  · decide
  · decide

/-- Witness for C2 at a concrete schedule: one buyer on the two-unit demo
sku — exactly one success, no stock failure, one unit consumed, distinct
payloads. -/
theorem concurrent_claims_witness :
    countOk (runPurchases demoStore "DISNEY_1M" [(1, "O1", "t1")]).1 = 1 ∧
    countNoStock (runPurchases demoStore "DISNEY_1M" [(1, "O1", "t1")]).1 = 0 ∧
    stock_for_sku (runPurchases demoStore "DISNEY_1M" [(1, "O1", "t1")]).2
      "DISNEY_1M" = 1 ∧
    (okPayloads (runPurchases demoStore "DISNEY_1M" [(1, "O1", "t1")]).1).Nodup := by
  obtain ⟨h1, h2, h3, h4⟩ := concurrent_claims demoStore "DISNEY_1M"
    { sku := "DISNEY_1M", name := "Disney 1m", price_cents := 300, active := true }
    [(1, "O1", "t1")] (by decide) (by decide) (by decide) (by decide)
    (by
      intro b hb
      rw [List.mem_singleton] at hb
      rw [hb]
      exact ⟨{ telegram_id := 1, username := some "alice", first_name := none,
               balance_cents := 500, created_at := "t0" }, by decide, by decide⟩)
  refine ⟨?w1, ?w2, ?w3, h4 (by decide)⟩
  · rw [h1]
    decide
  · rw [h2]
    decide
  · rw [h3]
    decide

end Bot
